import Mathlib

/-!
Verification development for the XML/JSON indentation engine of
`indentxml.py` (Sublime Text "Indent XML" plugin core).

The definitions below are a shallow embedding of the Python source:
text is modelled as `List Char`, the regex-driven scans are modelled as
explicit token scanners mirroring the exact semantics of the Python
regular expressions used, and the two external library calls
(`lxml.etree` parse/serialize and the Python codec registry) are
modelled as explicit parameters (oracles) or, where a concrete instance
is needed, as definitions modelled from the spec and marked as such.
-/

/-! ## Comment-stripping pre-processor: `Utilities.json_minify`

The Python code scans the input with `re.finditer` over the pattern
`"|(/\*)|(\*/)|(//)|\n|\r`, appending the text between matches
(whitespace-stripped when outside a string) and updating three boolean
states.  We mirror that token scan exactly. -/

/-- The five token shapes of the `json_minify` tokenizer regex, plus the
two line-break characters. -/
inductive Tok where
  | quote
  | openM
  | closeM
  | lineC
  | nl
  | cr
deriving DecidableEq

/-- The literal characters of a token (the regex match text). -/
def tokStr : Tok → List Char
  | .quote => ['"']
  | .openM => ['/', '*']
  | .closeM => ['*', '/']
  | .lineC => ['/', '/']
  | .nl => ['\n']
  | .cr => ['\r']

/-- Python `val in ' \r\n\t'` (substring membership) for each token text. -/
def isWsTok : Tok → Bool
  | .nl => true
  | .cr => true
  | _ => false

/-- Token starting at the head of the list, if any (regex alternation at
one position; the alternatives are mutually exclusive). -/
def tokAt : List Char → Option (Tok × List Char)
  | '"' :: r => some (.quote, r)
  | '/' :: '*' :: r => some (.openM, r)
  | '*' :: '/' :: r => some (.closeM, r)
  | '/' :: '/' :: r => some (.lineC, r)
  | '\n' :: r => some (.nl, r)
  | '\r' :: r => some (.cr, r)
  | _ => none

/-- Leftmost token match: returns the text before the match, the token,
and the text after the match, like one step of `re.finditer`. -/
def findFirstTok : List Char → Option (List Char × Tok × List Char)
  | [] => none
  | c :: rest =>
    match tokAt (c :: rest) with
    | some (t, post) => some ([], t, post)
    | none =>
      match findFirstTok rest with
      | some (pre, t, post) => some (c :: pre, t, post)
      | none => none

/-- Scanner state of `json_minify`: inside string / block comment / line
comment. -/
structure MSt where
  inS : Bool
  inM : Bool
  inL : Bool
deriving DecidableEq

/-- Number of backslashes at the very end of a list. -/
def trailingBackslashes (l : List Char) : Nat :=
  (l.reverse.takeWhile (fun c => c = '\\')).length

/-- The length of the match of
`re.compile(r'(\\)*$').search(string, 0, match.start())`: the backslash
run at the end of the prefix before the quote — except that Python's `$`
also matches just before a newline that ends the string, so when the
prefix ends in a (single) `\n` the leftmost match is the backslash run
just before that newline. -/
def pyEndSlashes (l : List Char) : Nat :=
  if l.getLast? = some '\n' then trailingBackslashes l.dropLast
  else trailingBackslashes l

/-- `re.sub('[ \t\n\r]+', '', tmp)`: drop every whitespace character. -/
def stripWs (l : List Char) : List Char :=
  l.filter (fun c => !(c = ' ' || c = '\t' || c = '\n' || c = '\r'))

/-- One token-handling step of `json_minify`, mirroring the `if/elif`
chain of the Python loop body.  `escEven` is the parity test of the
backslashes preceding a quote.  Returns the new state and the characters
this step contributes to the output (for a quote, the `index -= 1` trick
makes the quote character part of the next copied segment; since `"` is
never stripped, that is equivalent to emitting it here). -/
def stepTok (strip : Bool) (st : MSt) (escEven : Bool) (t : Tok) : MSt × List Char :=
  if t = Tok.quote && !(st.inM || st.inL) then
    ({ st with inS := if !st.inS || escEven then !st.inS else st.inS }, ['"'])
  else if !(st.inS || st.inM || st.inL) then
    if t = Tok.openM then ({ st with inM := true }, [])
    else if t = Tok.lineC then ({ st with inL := true }, [])
    else (st, [])
  else if t = Tok.closeM && st.inM && !(st.inS || st.inL) then
    ({ st with inM := false }, [])
  else if (t = Tok.nl || t = Tok.cr) && !(st.inM || st.inS) && st.inL then
    ({ st with inL := false }, [])
  else if !((st.inM || st.inL) || (isWsTok t && strip)) then
    (st, tokStr t)
  else (st, [])

/-- The `json_minify` scan loop: find the next token, append the segment
before it (dropped inside comments, whitespace-stripped outside strings),
handle the token, continue.  When no token remains, the rest of the input
is appended verbatim (`new_str.append(string[index:])`).  `done` is the
already consumed part of the original input, so that at each token
`done ++ pre` is exactly `string[0:match.start()]`, the prefix over
which `end_slashes_re` counts the escaping backslashes of a quote.
`fuel` only bounds the recursion; `json_minify` supplies enough for
every input. -/
def miniLoop (strip : Bool) : Nat → MSt → List Char → List Char → List Char
  | 0, _, _, s => s
  | fuel + 1, st, done, s =>
    match findFirstTok s with
    | none => s
    | some (pre, t, post) =>
      let seg :=
        if st.inM || st.inL then []
        else if st.inS then pre
        else if strip then stripWs pre else pre
      let step := stepTok strip st (decide (pyEndSlashes (done ++ pre) % 2 = 0)) t
      seg ++ step.2 ++ miniLoop strip fuel step.1 (done ++ pre ++ tokStr t) post

/-- Final scanner state after running the `json_minify` loop from the
consumed prefix `done` and remaining input `s`. -/
def miniStates (strip : Bool) : Nat → MSt → List Char → List Char → MSt
  | 0, st, _, _ => st
  | fuel + 1, st, done, s =>
    match findFirstTok s with
    | none => st
    | some (pre, t, post) =>
      miniStates strip fuel (stepTok strip st (decide (pyEndSlashes (done ++ pre) % 2 = 0)) t).1
        (done ++ pre ++ tokStr t) post

/-- `Utilities.json_minify(string, strip_space)`. -/
def json_minify (strip : Bool) (s : List Char) : List Char :=
  miniLoop strip (s.length + 1) ⟨false, false, false⟩ [] s

/-! ## JSON values, `json.loads` and `json.dumps`

`IndentJsonCommand.indent` calls
`json.loads(minified, object_pairs_hook=None | OrderedDict)` and
`json.dumps(parsed, sort_keys=b, indent=ind, separators=(',', ': '),
ensure_ascii=False)`.  Both hooks give the same ordered-object
semantics (first-seen key position, last value wins), so one value type
with ordered pair lists models both.  Numbers are modelled as integers:
fraction/exponent literals parse to Python floats, whose formatting is
floating-point behaviour outside this embedding, so the model's parser
rejects them; `\uXXXX` escapes are modelled for non-surrogate values. -/

/-- JSON value tree; objects are ordered key/value pair lists. -/
inductive JVal where
  | null
  | bool (b : Bool)
  | num (n : Int)
  | str (s : List Char)
  | arr (items : List JVal)
  | obj (pairs : List (List Char × JVal))

/-- JSON whitespace as accepted by Python's decoder (` \t\n\r`). -/
def isJWs (c : Char) : Bool :=
  c = ' ' || c = '\t' || c = '\n' || c = '\r'

/-- Skip JSON whitespace. -/
def skipWs (s : List Char) : List Char := s.dropWhile isJWs

/-- Hexadecimal digit value. -/
def hexVal (c : Char) : Option Nat :=
  if '0' ≤ c ∧ c ≤ '9' then some (c.toNat - '0'.toNat)
  else if 'a' ≤ c ∧ c ≤ 'f' then some (c.toNat - 'a'.toNat + 10)
  else if 'A' ≤ c ∧ c ≤ 'F' then some (c.toNat - 'A'.toNat + 10)
  else none

/-- The short string escapes of the JSON grammar. -/
def escMap (c : Char) : Option Char :=
  if c = '"' then some '"'
  else if c = '\\' then some '\\'
  else if c = '/' then some '/'
  else if c = 'b' then some '\x08'
  else if c = 'f' then some '\x0c'
  else if c = 'n' then some '\n'
  else if c = 'r' then some '\r'
  else if c = 't' then some '\t'
  else none

/-- Parse a string literal body after the opening quote, strict mode:
unescaped control characters are rejected, `\uXXXX` is accepted for
non-surrogate code points. -/
def parseStr : List Char → Option (List Char × List Char)
  | [] => none
  | '"' :: r => some ([], r)
  | '\\' :: 'u' :: h1 :: h2 :: h3 :: h4 :: r =>
    match hexVal h1, hexVal h2, hexVal h3, hexVal h4 with
    | some x1, some x2, some x3, some x4 =>
      let n := ((x1 * 16 + x2) * 16 + x3) * 16 + x4
      if 0xD800 ≤ n ∧ n ≤ 0xDFFF then none
      else (parseStr r).map (fun p => (Char.ofNat n :: p.1, p.2))
    | _, _, _, _ => none
  | '\\' :: e :: r =>
    match escMap e with
    | some c => (parseStr r).map (fun p => (c :: p.1, p.2))
    | none => none
  | c :: r =>
    if c.toNat < 0x20 then none
    else (parseStr r).map (fun p => (c :: p.1, p.2))

/-- Decimal digit run to a natural number. -/
def digitsToNat (ds : List Char) : Nat :=
  ds.foldl (fun a c => 10 * a + (c.toNat - '0'.toNat)) 0

/-- Unsigned integer literal: `0` or a nonzero-leading digit run, like
the integer part of the decoder's `NUMBER_RE`. -/
def parseUInt : List Char → Option (Nat × List Char)
  | '0' :: r => some (0, r)
  | c :: r =>
    if c.isDigit then
      some (digitsToNat ((c :: r).takeWhile Char.isDigit),
            (c :: r).dropWhile Char.isDigit)
    else none
  | [] => none

/-- A fraction or exponent would follow: the literal is a Python float,
which this model does not cover. -/
def floatFollows : List Char → Bool
  | c :: _ => c = '.' || c = 'e' || c = 'E'
  | [] => false

/-- Signed integer literal. -/
def parseNum : List Char → Option (Int × List Char)
  | '-' :: r =>
    match parseUInt r with
    | some (n, rest) => if floatFollows rest then none else some (-(n : Int), rest)
    | none => none
  | s =>
    match parseUInt s with
    | some (n, rest) => if floatFollows rest then none else some ((n : Int), rest)
    | none => none

/-- Insert a parsed object member, with `dict`/`OrderedDict` semantics:
an existing key keeps its position and takes the new value, a new key is
appended. -/
def insertPair (ps : List (List Char × JVal)) (k : List Char) (v : JVal) :
    List (List Char × JVal) :=
  if ps.any (fun p => p.1 == k) then
    ps.map (fun p => if p.1 == k then (p.1, v) else p)
  else ps ++ [(k, v)]

/-- Object member loop after the first non-`}` character: key string,
colon, value, then `,` (next member) or `}` (done).  `pv` parses one
value. -/
def parseMembersF (pv : List Char → Option (JVal × List Char)) :
    Nat → List (List Char × JVal) → List Char → Option (JVal × List Char)
  | 0, _, _ => none
  | fuel + 1, acc, s =>
    match s with
    | '"' :: r =>
      match parseStr r with
      | some (k, r2) =>
        match skipWs r2 with
        | ':' :: r3 =>
          match pv (skipWs r3) with
          | some (v, r4) =>
            match skipWs r4 with
            | ',' :: r5 => parseMembersF pv fuel (insertPair acc k v) (skipWs r5)
            | '\x7d' :: r5 => some (.obj (insertPair acc k v), r5)
            | _ => none
          | none => none
        | _ => none
      | none => none
    | _ => none

/-- Array item loop after the first non-`]` character. -/
def parseItemsF (pv : List Char → Option (JVal × List Char)) :
    Nat → List JVal → List Char → Option (JVal × List Char)
  | 0, _, _ => none
  | fuel + 1, acc, s =>
    match pv s with
    | some (v, r) =>
      match skipWs r with
      | ',' :: r2 => parseItemsF pv fuel (acc ++ [v]) (skipWs r2)
      | ']' :: r2 => some (.arr (acc ++ [v]), r2)
      | _ => none
    | none => none

/-- One value at the current position (`scan_once`), parameterised by the
parser for nested values. -/
def parseOne (pv : List Char → Option (JVal × List Char)) (s : List Char) :
    Option (JVal × List Char) :=
  match s with
  | '\x7b' :: r =>
    match skipWs r with
    | '\x7d' :: r2 => some (.obj [], r2)
    | t => parseMembersF pv (t.length + 1) [] t
  | '[' :: r =>
    match skipWs r with
    | ']' :: r2 => some (.arr [], r2)
    | t => parseItemsF pv (t.length + 1) [] t
  | '"' :: r => (parseStr r).map (fun p => (.str p.1, p.2))
  | 't' :: 'r' :: 'u' :: 'e' :: r => some (.bool true, r)
  | 'f' :: 'a' :: 'l' :: 's' :: 'e' :: r => some (.bool false, r)
  | 'n' :: 'u' :: 'l' :: 'l' :: r => some (.null, r)
  | t => (parseNum t).map (fun p => (.num p.1, p.2))

/-- Value parser with a nesting-depth fuel. -/
def parseVF : Nat → List Char → Option (JVal × List Char)
  | 0, _ => none
  | fuel + 1, s => parseOne (fun t => parseVF fuel t) s

/-- `json.loads`: skip leading whitespace, parse one value, require only
whitespace after it.  The fuel exceeds any possible nesting depth. -/
def json_loads (s : List Char) : Option JVal :=
  match parseVF (s.length + 1) (skipWs s) with
  | some (v, rest) => if (skipWs rest).isEmpty then some v else none
  | none => none

/-- Code-point lexicographic string order, Python `str` comparison. -/
def strLe : List Char → List Char → Bool
  | [], _ => true
  | _ :: _, [] => false
  | a :: as, b :: bs => a.toNat < b.toNat || (a.toNat = b.toNat && strLe as bs)

/-- Stable insertion into a key-sorted pair list (equal keys keep their
relative order). -/
def insertSorted (p : List Char × JVal) : List (List Char × JVal) → List (List Char × JVal)
  | [] => [p]
  | q :: qs => if strLe q.1 p.1 then q :: insertSorted p qs else p :: q :: qs

/-- Stable sort of object members by key, Python `sorted(items)` on the
distinct keys produced by parsing. -/
def sortPairs (ps : List (List Char × JVal)) : List (List Char × JVal) :=
  ps.foldl (fun acc p => insertSorted p acc) []

/-- Adjacent-keys-ordered test for a rendered object's member list. -/
def keysSorted : List (List Char × JVal) → Bool
  | [] => true
  | [_] => true
  | p :: q :: r => strLe p.1 q.1 && keysSorted (q :: r)

/-- Lowercase hexadecimal digit. -/
def hexDigit (n : Nat) : Char :=
  if n < 10 then Char.ofNat ('0'.toNat + n) else Char.ofNat ('a'.toNat + n - 10)

/-- `json.dumps` string escaping with `ensure_ascii=False`: only `\`,
`"` and control characters are escaped; everything else is emitted
literally. -/
def escChar (c : Char) : List Char :=
  if c = '\\' then ['\\', '\\']
  else if c = '"' then ['\\', '"']
  else if c = '\n' then ['\\', 'n']
  else if c = '\r' then ['\\', 'r']
  else if c = '\t' then ['\\', 't']
  else if c = '\x08' then ['\\', 'b']
  else if c = '\x0c' then ['\\', 'f']
  else if c.toNat < 0x20 then
    ['\\', 'u', '0', '0', hexDigit (c.toNat / 16), hexDigit (c.toNat % 16)]
  else [c]

/-- Rendered string literal. -/
def renderString (s : List Char) : List Char :=
  '"' :: (s.map escChar).flatten ++ ['"']

/-- Decimal rendering of a natural number. -/
def renderNat (n : Nat) : List Char := Nat.toDigits 10 n

/-- Decimal rendering of an integer. -/
def renderInt (n : Int) : List Char :=
  if n < 0 then '-' :: renderNat n.natAbs else renderNat n.toNat

/-- The indent prefix at a nesting level. -/
def indentAt (ind : List Char) (lvl : Nat) : List Char :=
  (List.replicate lvl ind).flatten

/-- One rendering step of `json.dumps(…, indent=ind,
separators=(',', ': '))`: containers put each item on its own line at
one deeper indent; `sortK` renders object members in ascending key
order, otherwise in stored (insertion) order.  `dv` renders nested
values. -/
def dumpsStep (dv : JVal → List Char) (ind : List Char) (sortK : Bool)
    (lvl : Nat) (v : JVal) : List Char :=
  match v with
  | .null => "null".toList
  | .bool true => "true".toList
  | .bool false => "false".toList
  | .num n => renderInt n
  | .str s => renderString s
  | .arr [] => "[]".toList
  | .arr items =>
    let nl1 := '\n' :: indentAt ind (lvl + 1)
    '[' :: nl1 ++ List.intercalate (',' :: nl1) (items.map dv) ++
      '\n' :: indentAt ind lvl ++ [']']
  | .obj [] => "\x7b\x7d".toList
  | .obj ps =>
    let ps2 := if sortK then sortPairs ps else ps
    let nl1 := '\n' :: indentAt ind (lvl + 1)
    '\x7b' :: nl1 ++
      List.intercalate (',' :: nl1)
        (ps2.map (fun p => renderString p.1 ++ ':' :: ' ' :: dv p.2)) ++
      '\n' :: indentAt ind lvl ++ ['\x7d']

/-- `json.dumps` with a depth fuel. -/
def dumpsVF (ind : List Char) (sortK : Bool) : Nat → Nat → JVal → List Char
  | 0, _, _ => []
  | fuel + 1, lvl, v => dumpsStep (fun w => dumpsVF ind sortK fuel (lvl + 1) w) ind sortK lvl v

/-- `IndentJsonCommand.indent`: minify, parse (ordered pairs), dump with
the configured indent unit and key ordering; a parse failure produces no
text (the command sets a status message and returns `None`). -/
def indentJson (ju : List Char) (sortK : Bool) (s : List Char) : Option (List Char) :=
  (json_loads (json_minify true s)).map (fun v => dumpsVF ju sortK (s.length + 1) 0 v)

/-! ## XML pipeline: `IndentXmlCommand.indent`

The encoding detection and the indent-remapping loop are repository
code and are embedded exactly.  The `lxml.etree`
parse/pretty-print/serialize round trip is an external library call; the
pipeline takes it as an explicit oracle `(encoding, headerFlag, text) ↦
Option text` (`none` models an `etree.LxmlError`), and the codec
registry lookup performed by `str.encode` is a boolean predicate on
encoding names. -/

/-- Does `pat` occur as a contiguous subsequence?  `re.match(".*P", line)`
succeeds exactly when `P` occurs in the (newline-free) line. -/
def containsSeq (pat : List Char) : List Char → Bool
  | [] => pat.isEmpty
  | c :: r => pat.isPrefixOf (c :: r) || containsSeq pat r

/-- The part of the input before the first `\r` or `\n`
(`re.search(r"[\r\n]", s)` then `s[:idx]`). -/
def firstLineOf (s : List Char) : List Char :=
  s.takeWhile (fun c => c != '\r' && c != '\n')

/-- The lazy group `(.*?)['"]` followed by `.*\?>`: the shortest prefix
up to a quote character after which `?>` still occurs. -/
def lazyGroup : List Char → Option (List Char)
  | [] => none
  | c :: r =>
    if (c = '"' ∨ c = '\'') ∧ containsSeq "?>".toList r then some []
    else (lazyGroup r).map (fun g => c :: g)

/-- A candidate match of `encoding=['"](.*?)['"].*\?>` starting exactly
at this position. -/
def encCandidate (t : List Char) : Option (List Char) :=
  if "encoding=".toList.isPrefixOf t then
    match t.drop 9 with
    | q :: rest => if q = '"' ∨ q = '\'' then lazyGroup rest else none
    | [] => none
  else none

/-- The greedy `.*` before `encoding=` makes the regex engine take the
rightmost position where the rest of the pattern matches. -/
def findLastEnc : List Char → Option (List Char)
  | [] => none
  | c :: r => (findLastEnc r).orElse (fun _ => encCandidate (c :: r))

/-- `re.match(b"<\\?.*encoding=['\"](.*?)['\"].*\\?>", firstLine)`:
anchored at the start, so the line must begin with `<?`. -/
def encSearch (s : List Char) : Option (List Char) :=
  match s with
  | '<' :: '?' :: r => findLastEnc r
  | _ => none

/-- The resolved encoding name: the declaration's encoding attribute in
the first line, lowercased, defaulting to `utf-8`. -/
def detectEncoding (s : List Char) : List Char :=
  match encSearch (firstLineOf s) with
  | some e => e.map Char.toLower
  | none => "utf-8".toList

/-- `re.match(br"<\?.*\?>", s)`: the input starts with `<?` and `?>`
occurs before the first newline. -/
def xmlHeaderFlag (s : List Char) : Bool :=
  match s with
  | '<' :: '?' :: rest => containsSeq "?>".toList (rest.takeWhile (fun c => c != '\n'))
  | _ => false

/-- The configured indent unit: `''.ljust(n)` for an integer setting,
the literal string otherwise. -/
def xmlIndentUnit : Sum Nat (List Char) → List Char
  | .inl n => List.replicate n ' '
  | .inr s => s

/-- `re.compile("  (?= *<)").sub(indent, line)`: every (non-overlapping,
left to right) pair of spaces that is followed by zero or more further
spaces and then a `<` is replaced by one indent unit; all other
characters are copied. -/
def leadingPairSub (ind : List Char) : List Char → List Char
  | [] => []
  | [c] => [c]
  | c :: c2 :: rest2 =>
    if c = ' ' && c2 = ' ' && ((rest2.dropWhile (fun x => x = ' ')).head? == some '<') then
      ind ++ leadingPairSub ind rest2
    else c :: leadingPairSub ind (c2 :: rest2)

/-- The line loop of the remapper: inside a CDATA interior lines are
copied verbatim until a line containing `]]>`; outside, the pair
substitution is applied and a line containing `<![CDATA[` arms the
interior flag for the following lines. -/
def remapLines (ind : List Char) : Bool → List (List Char) → List (List Char)
  | _, [] => []
  | true, line :: rest =>
    line :: remapLines ind (!(containsSeq "]]>".toList line)) rest
  | false, line :: rest =>
    leadingPairSub ind line :: remapLines ind (containsSeq "<![CDATA[".toList line) rest

/-- `str.splitlines()` restricted to `\n` separators (the serializer
output uses `\n`): no trailing empty line. -/
def splitNlAux (cur : List Char) : List Char → List (List Char)
  | [] => [cur.reverse]
  | '\n' :: r =>
    cur.reverse :: (match r with | [] => [] | c :: r2 => splitNlAux [] (c :: r2))
  | c :: r => splitNlAux (c :: cur) r

/-- Split into lines like `str.splitlines()` on `\n`. -/
def splitNl : List Char → List (List Char)
  | [] => []
  | c :: r => splitNlAux [] (c :: r)

/-- The second pass: skipped entirely when the configured indent is the
two-space `lxml` default, otherwise split / remap / rejoin with `\n`. -/
def remapXml (ind : List Char) (s : List Char) : List Char :=
  if ind = [' ', ' '] then s
  else List.intercalate ['\n'] (remapLines ind false (splitNl s))

/-- Outcome of `IndentXmlCommand.indent`: formatted text, the caught
`etree.LxmlError` path (status message, `None` returned), or an
exception that is not caught by the `except etree.LxmlError` handler
(the `LookupError` from `s.encode(encoding)` with an unknown codec). -/
inductive XmlOutcome where
  | ok (text : List Char)
  | xmlError
  | uncaughtLookupError (enc : List Char)
deriving DecidableEq

/-- Type of the `lxml` round-trip oracle:
`fromstring` + `tostring(pretty_print=True, xml_declaration=hdr,
encoding=enc)` as a function of the resolved encoding, the header flag
and the full input text; `none` models a raised `etree.LxmlError`. -/
def XmlOracle : Type :=
  List Char → Bool → List Char → Option (List Char)

/-- `IndentXmlCommand.indent`: detect the encoding from the first line,
encode the input with it (raising an uncaught `LookupError` when the
codec is unknown — this happens before the `try` block), run the `lxml`
round trip inside `try/except etree.LxmlError`, then remap the indent. -/
def indentXml (oracle : XmlOracle) (codecOk : List Char → Bool)
    (settingsIndent : Sum Nat (List Char)) (s : List Char) : XmlOutcome :=
  let enc := detectEncoding s
  if !codecOk enc then .uncaughtLookupError enc
  else
    match oracle enc (xmlHeaderFlag s) s with
    | none => .xmlError
    | some out => .ok (remapXml (xmlIndentUnit settingsIndent) out)

/-- Text produced by an XML outcome: only the success path yields text;
both error paths leave the buffer untouched (`indent` returns `None`). -/
def outcomeText : XmlOutcome → Option (List Char)
  | .ok t => some t
  | .xmlError => none
  | .uncaughtLookupError _ => none

/-- The caller's `if s: view.replace(...)` guard: the buffer is replaced
only when formatting produced a non-empty string, otherwise the original
content stays. -/
def applyResult (r : Option (List Char)) (orig : List Char) : List Char :=
  match r with
  | some t => if t.isEmpty then orig else t
  | none => orig

/-! ### A concrete `lxml` instance for single-CDATA documents

Needed to evaluate the XML pipeline end to end on concrete inputs. -/

/-- Split at the first occurrence of `pat`: returns the part before and
the part after it. -/
def splitFirst (pat : List Char) : List Char → Option (List Char × List Char)
  | [] => none
  | c :: r =>
    if pat.isPrefixOf (c :: r) then some ([], (c :: r).drop pat.length)
    else (splitFirst pat r).map (fun p => (c :: p.1, p.2))

/-- Modelled from the spec: the missing `lxml.etree` parse step
(§4.4), restricted to documents of the shape
`<tag><![CDATA[payload]]></tag>` — one root element whose only content
is a single CDATA section, which is "preserved verbatim regardless of
content". Returns the tag name and the raw CDATA payload. -/
def parseCdataDoc (s : List Char) : Option (List Char × List Char) :=
  match s with
  | '<' :: r =>
    match splitFirst ['>'] r with
    | some (tag, rest) =>
      if tag ≠ [] ∧ tag.all (fun c =>
          c ≠ '<' ∧ c ≠ '>' ∧ c ≠ '/' ∧ c ≠ '!' ∧ c ≠ ' ' ∧ c ≠ '?') then
        if "<![CDATA[".toList.isPrefixOf rest then
          match splitFirst "]]>".toList (rest.drop 9) with
          | some (payload, tail) =>
            if tail = '<' :: '/' :: (tag ++ ['>']) then some (tag, payload)
            else none
          | none => none
        else none
      else none
    | none => none
  | _ => none

/-- Modelled from the spec: the missing `lxml` first-pass pretty-print
(§4.5) for a single-CDATA document — a root element whose content is
text renders on one line, with the CDATA payload byte-for-byte
unchanged. -/
def renderCdataDoc (tag payload : List Char) : List Char :=
  '<' :: (tag ++ ['>']) ++ "<![CDATA[".toList ++ payload ++ "]]></".toList ++ tag ++ ['>']

/-- Modelled from the spec: the `lxml` round-trip oracle on single-CDATA
documents (parse then first-pass serialize); other documents are not
modelled and report a parse failure. -/
def lxmlCdataOnly : XmlOracle := fun _enc _hdr s =>
  (parseCdataDoc s).map (fun p => renderCdataDoc p.1 p.2)

/-! ## Dispatcher: `AutoIndentCommand` -/

/-- The classification result of `AutoIndentCommand.get_text_type`. -/
inductive TextType where
  | xml
  | json
  | notsupported
deriving DecidableEq

/-- `AutoIndentCommand.get_text_type`: trust the declared language; for
plain text sniff the first character of the (already stripped, possibly
empty) sample. -/
def get_text_type (language s : List Char) : TextType :=
  if language = "xml".toList then .xml
  else if language = "json".toList then .json
  else if language = "plain text".toList ∧ s ≠ [] then
    if s.head? = some '<' then .xml
    else if s.head? = some '{' ∨ s.head? = some '[' then .json
    else .notsupported
  else .notsupported

/-- `AutoIndentCommand.indent`: dispatch on the sniffed type; an
unsupported sample is returned unchanged. -/
def autoIndent (xmlFmt jsonFmt : List Char → Option (List Char))
    (language s : List Char) : Option (List Char) :=
  match get_text_type language s with
  | .xml => xmlFmt s
  | .json => jsonFmt s
  | .notsupported => some s

/-- Python `str.strip()` over the ASCII whitespace characters: the
caller strips the selection before classifying it. -/
def isPyWs (c : Char) : Bool :=
  c = ' ' || c = '\t' || c = '\n' || c = '\r' || c = '\x0b' || c = '\x0c'

/-- Strip leading and trailing whitespace. -/
def pyStrip (s : List Char) : List Char :=
  ((s.dropWhile isPyWs).reverse.dropWhile isPyWs).reverse

/-! ## Helper lemmas -/

theorem strLe_total (a : List Char) : ∀ b, strLe a b = true ∨ strLe b a = true := by
  induction a with
  | nil => intro b; left; rfl
  | cons x xs ih =>
    intro b
    cases b with
    | nil => right; rfl
    | cons y ys =>
      rcases Nat.lt_trichotomy x.toNat y.toNat with h | h | h
      · left; simp [strLe, h]
      · rcases ih ys with h2 | h2
        · left; simp [strLe, h, h2]
        · right; simp [strLe, h.symm, h2]
      · right; simp [strLe, h]

theorem keysSorted_cons_iff (p : List Char × JVal) (l : List (List Char × JVal)) :
    keysSorted (p :: l) = true ↔
      keysSorted l = true ∧ ∀ q, l.head? = some q → strLe p.1 q.1 = true := by
  cases l with
  | nil => simp [keysSorted]
  | cons q r =>
    show (strLe p.1 q.1 && keysSorted (q :: r)) = true ↔ _
    rw [Bool.and_eq_true]
    constructor
    · rintro ⟨h1, h2⟩
      exact ⟨h2, fun q' hq' => by cases hq'; exact h1⟩
    · rintro ⟨h1, h2⟩
      exact ⟨h2 q rfl, h1⟩

theorem insertSorted_head (p : List Char × JVal) (l : List (List Char × JVal)) :
    (insertSorted p l).head? = some p ∨
      ((insertSorted p l).head? = l.head? ∧
        ∃ q r, l = q :: r ∧ strLe q.1 p.1 = true) := by
  cases l with
  | nil => left; rfl
  | cons q r =>
    by_cases h : strLe q.1 p.1 = true
    · right
      refine ⟨?_, q, r, rfl, h⟩
      simp [insertSorted, h]
    · left
      simp [insertSorted, h]

theorem keysSorted_insertSorted (p : List Char × JVal) (l : List (List Char × JVal))
    (hl : keysSorted l = true) : keysSorted (insertSorted p l) = true := by
  induction l with
  | nil => rfl
  | cons q r ih =>
    rw [keysSorted_cons_iff] at hl
    by_cases hq : strLe q.1 p.1 = true
    · have hr := ih hl.1
      show keysSorted (if strLe q.1 p.1 = true then q :: insertSorted p r else p :: q :: r) = true
      rw [if_pos hq, keysSorted_cons_iff]
      refine ⟨hr, fun q' hq' => ?_⟩
      rcases insertSorted_head p r with h1 | ⟨h2, q2, r2, hr2, _⟩
      · rw [h1] at hq'; cases hq'; exact hq
      · rw [h2] at hq'; exact hl.2 q' hq'
    · show keysSorted (if strLe q.1 p.1 = true then q :: insertSorted p r else p :: q :: r) = true
      rw [if_neg hq, keysSorted_cons_iff]
      refine ⟨by rw [keysSorted_cons_iff]; exact hl, fun q' hq' => ?_⟩
      cases hq'
      rcases strLe_total q.1 p.1 with h | h
      · exact absurd h hq
      · exact h

theorem keysSorted_foldl (ps : List (List Char × JVal)) :
    ∀ acc, keysSorted acc = true →
      keysSorted (ps.foldl (fun a p => insertSorted p a) acc) = true := by
  induction ps with
  | nil => intro acc h; exact h
  | cons p rest ih => intro acc h; exact ih _ (keysSorted_insertSorted p acc h)

theorem keysSorted_sortPairs (ps : List (List Char × JVal)) :
    keysSorted (sortPairs ps) = true :=
  keysSorted_foldl ps [] rfl

theorem insertPair_keys_of_mem (ps : List (List Char × JVal)) (k : List Char) (v : JVal)
    (h : ps.any (fun p => p.1 == k) = true) :
    (insertPair ps k v).map Prod.fst = ps.map Prod.fst := by
  rw [insertPair, if_pos h, List.map_map]
  apply List.map_congr_left
  intro p _
  show (if p.1 == k then (p.1, v) else p).1 = p.1
  split <;> rfl

theorem insertPair_keys_of_new (ps : List (List Char × JVal)) (k : List Char) (v : JVal)
    (h : ps.any (fun p => p.1 == k) = false) :
    (insertPair ps k v).map Prod.fst = ps.map Prod.fst ++ [k] := by
  rw [insertPair, if_neg (by rw [h]; exact Bool.false_ne_true)]
  simp

/-! ## Claims -/

/-- Claim C2: `formatJson` renders object keys in first-seen insertion
order when key sorting is off, and in ascending code-point order when it
is on; concretely `{"b":1,"a":2}` keeps `b` before `a` unsorted and puts
`a` before `b` sorted.  The general conjuncts: `sortPairs` (the
`sort_keys=True` rendering order) always yields adjacent-sorted keys,
and `insertPair` (the parse-time `OrderedDict`/`dict` member insertion)
appends a new key at the end and keeps the position of an existing
key. -/
theorem c2_json_key_order :
    (indentJson "    ".toList false "\x7b\"b\":1,\"a\":2\x7d".toList
      = some "\x7b\n    \"b\": 1,\n    \"a\": 2\n\x7d".toList) ∧
    (indentJson "    ".toList true "\x7b\"b\":1,\"a\":2\x7d".toList
      = some "\x7b\n    \"a\": 2,\n    \"b\": 1\n\x7d".toList) ∧
    (∀ ps, keysSorted (sortPairs ps) = true) ∧
    (∀ ps k v, ps.any (fun p => p.1 == k) = false →
      (insertPair ps k v).map Prod.fst = ps.map Prod.fst ++ [k]) ∧
    (∀ ps k v, ps.any (fun p => p.1 == k) = true →
      (insertPair ps k v).map Prod.fst = ps.map Prod.fst) := by
  refine ⟨by decide, by decide, keysSorted_sortPairs, ?_, ?_⟩
  · intro ps k v h; exact insertPair_keys_of_new ps k v h
  · intro ps k v h; exact insertPair_keys_of_mem ps k v h

/-- Witness for C2 at a concrete instance. -/
theorem c2_json_key_order_witness :
    (insertPair [] "k".toList JVal.null).map Prod.fst
      = ([] : List (List Char × JVal)).map Prod.fst ++ ["k".toList] :=
  c2_json_key_order.2.2.2.1 [] "k".toList JVal.null (by decide)

/-- The test document `<?xml version="1.0" encoding="ISO-8859-1"?>` +
newline + body, for the encoding-detection claims. -/
def isoDeclInput : List Char :=
  "<?xml version=\"1.0\" encoding=\"ISO-8859-1\"?>\n<a/>".toList

/-- Claim C4: the decoding encoding is resolved from the part of the
input before the first line break: an `encoding="…"` / `encoding='…'`
attribute of a leading `<?…?>` declaration (any tag casing — the regex
constrains nothing between `<?` and `encoding=`) selects that encoding
for the whole input, otherwise UTF-8 is used; the ISO-8859-1 example
resolves to ISO-8859-1, and the pipeline hands the full input together
with that resolved encoding to the parse step. -/
theorem c4_encoding_detection :
    (∀ s, detectEncoding s = detectEncoding (firstLineOf s)) ∧
    (detectEncoding isoDeclInput = "iso-8859-1".toList) ∧
    (detectEncoding "<?XML version='1.0' encoding='ISO-8859-1'?>\n<a/>".toList
      = "iso-8859-1".toList) ∧
    (∀ s, encSearch (firstLineOf s) = none → detectEncoding s = "utf-8".toList) ∧
    (∀ (o : XmlOracle) (ck : List Char → Bool) ind, ck "iso-8859-1".toList = true →
      indentXml o ck ind isoDeclInput =
        match o "iso-8859-1".toList (xmlHeaderFlag isoDeclInput) isoDeclInput with
        | none => XmlOutcome.xmlError
        | some t => XmlOutcome.ok (remapXml (xmlIndentUnit ind) t)) := by
  have hiso : detectEncoding isoDeclInput = "iso-8859-1".toList := by decide
  refine ⟨?_, hiso, by decide, ?_, ?_⟩
  · intro s
    show (match encSearch (firstLineOf s) with
          | some e => e.map Char.toLower
          | none => "utf-8".toList) =
         (match encSearch (firstLineOf (firstLineOf s)) with
          | some e => e.map Char.toLower
          | none => "utf-8".toList)
    rw [firstLineOf, firstLineOf, List.takeWhile_idem]
  · intro s h
    show (match encSearch (firstLineOf s) with
          | some e => e.map Char.toLower
          | none => "utf-8".toList) = "utf-8".toList
    rw [h]
  · intro o ck ind hck
    show (if !ck (detectEncoding isoDeclInput) then
            XmlOutcome.uncaughtLookupError (detectEncoding isoDeclInput)
          else
            match o (detectEncoding isoDeclInput) (xmlHeaderFlag isoDeclInput) isoDeclInput with
            | none => XmlOutcome.xmlError
            | some out => XmlOutcome.ok (remapXml (xmlIndentUnit ind) out)) = _
    rw [hiso, hck]
    rfl

/-- Witness for C4: the pipeline conjunct at a trivial parse oracle. -/
theorem c4_encoding_detection_witness :
    indentXml (fun _ _ _ => none) (fun _ => true) (Sum.inl 4) isoDeclInput =
      match (fun (_ : List Char) (_ : Bool) (_ : List Char) =>
              (none : Option (List Char))) "iso-8859-1".toList
            (xmlHeaderFlag isoDeclInput) isoDeclInput with
      | none => XmlOutcome.xmlError
      | some t => XmlOutcome.ok (remapXml (xmlIndentUnit (Sum.inl 4)) t) :=
  c4_encoding_detection.2.2.2.2 (fun _ _ _ => none) (fun _ => true) (Sum.inl 4) rfl

/-- Claim C5: malformed input produces the error outcome and no text:
a parse failure in the XML pipeline yields the caught-`LxmlError`
outcome (status message, `None` returned), the JSON pipeline yields
`None` on `{"a":}` for every configuration, and in both cases the
caller's `if s:` guard leaves the original buffer untouched. -/
theorem c5_malformed_no_partial_output :
    (∀ (o : XmlOracle) (ck : List Char → Bool) ind s,
      ck (detectEncoding s) = true →
      o (detectEncoding s) (xmlHeaderFlag s) s = none →
      indentXml o ck ind s = XmlOutcome.xmlError) ∧
    (∀ orig, applyResult (outcomeText XmlOutcome.xmlError) orig = orig) ∧
    (∀ ju sk, indentJson ju sk "\x7b\"a\":\x7d".toList = none) ∧
    (∀ ju sk orig, applyResult (indentJson ju sk "\x7b\"a\":\x7d".toList) orig = orig) := by
  have hjson : ∀ ju sk, indentJson ju sk "\x7b\"a\":\x7d".toList = none := by
    intro ju sk
    rfl
  refine ⟨?_, fun _ => rfl, hjson, ?_⟩
  · intro o ck ind s hck ho
    show (if !ck (detectEncoding s) then
            XmlOutcome.uncaughtLookupError (detectEncoding s)
          else
            match o (detectEncoding s) (xmlHeaderFlag s) s with
            | none => XmlOutcome.xmlError
            | some out => XmlOutcome.ok (remapXml (xmlIndentUnit ind) out)) = _
    rw [hck, ho]
    rfl
  · intro ju sk orig
    rw [hjson ju sk]
    rfl

/-- Witness for C5: the claim's own example `<a><b></a>` under an oracle
that (like `lxml` on that input) reports a parse error. -/
theorem c5_malformed_no_partial_output_witness :
    indentXml (fun _ _ _ => none) (fun _ => true) (Sum.inl 4) "<a><b></a>".toList
      = XmlOutcome.xmlError :=
  c5_malformed_no_partial_output.1 (fun _ _ _ => none) (fun _ => true)
    (Sum.inl 4) "<a><b></a>".toList rfl rfl

/-- Claim C1 (the code contradicts it): on the single-line CDATA document
`<r><![CDATA[x  <y]]></r>` with the default `xml_indent = 4`, the
remapper's unanchored substitution `"  (?= *<)"` rewrites the two spaces
*inside* the CDATA payload (they precede `<y`), so the payload bytes
change from `x  <y` to `x    <y` even though the line's rewriting was
supposed to touch only its leading whitespace. -/
theorem c1_cdata_payload_rewritten :
    indentXml lxmlCdataOnly (fun _ => true) (Sum.inl 4) "<r><![CDATA[x  <y]]></r>".toList
      = XmlOutcome.ok "<r><![CDATA[x    <y]]></r>".toList ∧
    parseCdataDoc "<r><![CDATA[x  <y]]></r>".toList
      = some ("r".toList, "x  <y".toList) ∧
    "x    <y".toList ≠ "x  <y".toList := by
  refine ⟨by decide, by decide, by decide⟩

/-- Claim C6 (the code contradicts it): `formatXml` is not idempotent —
running the pipeline twice on `<r><![CDATA[x  <y]]></r>` widens the
CDATA-interior spaces again (2 → 4 → 8), so the second output differs
from the first. -/
theorem c6_formatXml_not_idempotent :
    indentXml lxmlCdataOnly (fun _ => true) (Sum.inl 4) "<r><![CDATA[x  <y]]></r>".toList
      = XmlOutcome.ok "<r><![CDATA[x    <y]]></r>".toList ∧
    indentXml lxmlCdataOnly (fun _ => true) (Sum.inl 4) "<r><![CDATA[x    <y]]></r>".toList
      = XmlOutcome.ok "<r><![CDATA[x        <y]]></r>".toList ∧
    "<r><![CDATA[x        <y]]></r>".toList ≠ "<r><![CDATA[x    <y]]></r>".toList := by
  refine ⟨by decide, by decide, by decide⟩

/-- Claim C3 (counterexample): the claimed "toggles iff the count of
immediately preceding backslashes is even" rule fails in both
directions.  On `\"x` the quote is preceded by one backslash (odd), yet
the state flips from outside-string to inside-string (the code toggles
unconditionally when not in a string).  Conversely on `"\` + newline +
`"` the final quote has zero immediately preceding backslashes (even)
and the scanner is inside a string, yet the state does not toggle:
`end_slashes_re`'s `$` matches before the trailing newline of the
prefix, so the code counts the one backslash before the newline and
treats the quote as escaped. -/
theorem c3_odd_backslash_quote_toggles :
    (pyEndSlashes ['\\'] % 2 = 1 ∧
     findFirstTok "\\\"x".toList = some (['\\'], Tok.quote, ['x']) ∧
     (MSt.mk false false false).inS = false ∧
     (miniStates true ("\\\"x".toList.length + 1) (MSt.mk false false false)
       [] "\\\"x".toList).inS = true) ∧
    (trailingBackslashes "\"\\\n".toList = 0 ∧
     (miniStates true 4 (MSt.mk false false false) [] "\"\\\n".toList).inS = true ∧
     (miniStates true 5 (MSt.mk false false false) [] "\"\\\n\"".toList).inS = true) := by
  refine ⟨⟨by decide, by decide, rfl, by decide⟩, by decide, by decide, by decide⟩

/-- Claim C3 (amended): outside comments, a quote always toggles the
state when the scanner is outside a string (it opens a string no matter
how many backslashes precede it); when inside a string it toggles iff
the backslash count of `end_slashes_re` over the prefix before the quote
is even — that count is the backslash run at the very end of the prefix,
except that when the prefix ends in a newline the run just before that
newline is counted (Python's `$` matches before a trailing newline), so
a quote immediately after backslash‑newline is treated as escaped. -/
theorem c3_quote_toggle_amended :
    (∀ (strip : Bool) (st : MSt) (esc : Bool), st.inM = false → st.inL = false →
      (stepTok strip st esc Tok.quote).1.inS
        = (if !st.inS || esc then !st.inS else st.inS)) ∧
    (∀ (l : List Char) (c : Char), c ≠ '\n' →
      pyEndSlashes (l ++ [c]) = trailingBackslashes (l ++ [c])) ∧
    (∀ l : List Char, pyEndSlashes (l ++ ['\n']) = trailingBackslashes l) ∧
    (∀ (strip : Bool) (fuel : Nat) (st : MSt) (done s pre post : List Char),
      st.inM = false → st.inL = false →
      findFirstTok s = some (pre, Tok.quote, post) →
      miniStates strip (fuel + 1) st done s
        = miniStates strip fuel
            ⟨if !st.inS || decide (pyEndSlashes (done ++ pre) % 2 = 0) then !st.inS else st.inS,
             false, false⟩ (done ++ pre ++ ['"']) post) ∧
    ((miniStates true 5 (MSt.mk true false false) [] "\\\\\"x".toList).inS = false) ∧
    ((miniStates true 5 (MSt.mk true false false) [] "\\\"x".toList).inS = true) ∧
    (pyEndSlashes "\"\\\n".toList = 1) := by
  refine ⟨?_, ?_, ?_, ?_, by decide, by decide, by decide⟩
  · intro strip st esc hM hL
    obtain ⟨inS, inM, inL⟩ := st
    cases hM; cases hL
    rfl
  · intro l c hc
    rw [pyEndSlashes, List.getLast?_concat]
    rw [if_neg (fun h => hc (Option.some.inj h))]
  · intro l
    rw [pyEndSlashes, List.getLast?_concat, if_pos rfl, List.dropLast_concat]
  · intro strip fuel st done s pre post hM hL hf
    obtain ⟨inS, inM, inL⟩ := st
    cases hM; cases hL
    show miniStates strip (fuel + 1) ⟨inS, false, false⟩ done s = _
    rw [miniStates, hf]
    rfl

/-- Witness for C3 (amended): the scan step at the closing quote of
`"\` + newline + `"`, whose consumed prefix ends in backslash‑newline. -/
theorem c3_quote_toggle_amended_witness :
    miniStates true 2 (MSt.mk true false false) "\"\\\n".toList "\"x".toList
      = miniStates true 1
          ⟨if !true || decide (pyEndSlashes ("\"\\\n".toList ++ []) % 2 = 0)
              then !true else true,
           false, false⟩ ("\"\\\n".toList ++ [] ++ ['"']) "x".toList :=
  c3_quote_toggle_amended.2.2.2.1 true 1 ⟨true, false, false⟩ "\"\\\n".toList
    "\"x".toList [] "x".toList rfl rfl (by decide)

/-- Claim C7 (counterexample): the text of an unterminated block comment
is not entirely dropped: everything after the last tokenizer match is
appended verbatim (`new_str.append(string[index:])`), so
`json_minify("\x7b\x7d /* x")` is `"\x7b\x7d x"`, not `"\x7b\x7d"`. -/
theorem c7_unterminated_tail_leaks :
    json_minify true "\x7b\x7d /* x".toList = "\x7b\x7d x".toList ∧
    "\x7b\x7d x".toList ≠ "\x7b\x7d".toList := by
  refine ⟨by decide, by decide⟩

/-- Claim C7 (amended): an unterminated block comment drops the input
between tokenizer matches and the matched tokens themselves (other than
`*/`, which would close it), no error is raised, but the text after the
final tokenizer match is appended verbatim even inside the open
comment. -/
theorem c7_unterminated_comment_amended :
    (∀ (strip : Bool) (fuel : Nat) (st : MSt) (done s : List Char),
      findFirstTok s = none → miniLoop strip (fuel + 1) st done s = s) ∧
    (∀ (strip : Bool) (fuel : Nat) (done s pre post : List Char) (t : Tok),
      findFirstTok s = some (pre, t, post) → t ≠ Tok.closeM →
      miniLoop strip (fuel + 1) ⟨false, true, false⟩ done s
        = miniLoop strip fuel ⟨false, true, false⟩ (done ++ pre ++ tokStr t) post) ∧
    (∀ (strip : Bool) (fuel : Nat) (done s pre post : List Char),
      findFirstTok s = some (pre, Tok.closeM, post) →
      miniLoop strip (fuel + 1) ⟨false, true, false⟩ done s
        = miniLoop strip fuel ⟨false, false, false⟩ (done ++ pre ++ tokStr Tok.closeM) post) ∧
    (json_minify true "\x7b\x7d /* xy\nz w".toList = "\x7b\x7dz w".toList) := by
  refine ⟨?_, ?_, ?_, by decide⟩
  · intro strip fuel st done s hf
    rw [miniLoop, hf]
  · intro strip fuel done s pre post t hf ht
    rw [miniLoop, hf]
    cases t with
    | closeM => exact absurd rfl ht
    | quote => rfl
    | openM => rfl
    | lineC => rfl
    | nl => rfl
    | cr => rfl
  · intro strip fuel done s pre post hf
    rw [miniLoop, hf]
    rfl

/-- Witness for C7 (amended): one dropped token step and the verbatim
tail on concrete input inside an open block comment. -/
theorem c7_unterminated_comment_amended_witness :
    miniLoop true 2 ⟨false, true, false⟩ "\x7b\x7d /*".toList " xy\nz w".toList
      = miniLoop true 1 ⟨false, true, false⟩
          ("\x7b\x7d /*".toList ++ " xy".toList ++ tokStr Tok.nl) "z w".toList ∧
    miniLoop true 1 ⟨false, true, false⟩ "\x7b\x7d /* xy\n".toList "z w".toList
      = "z w".toList :=
  ⟨c7_unterminated_comment_amended.2.1 true 1 "\x7b\x7d /*".toList " xy\nz w".toList
      " xy".toList "z w".toList Tok.nl (by decide) (by decide),
   c7_unterminated_comment_amended.1 true 0 ⟨false, true, false⟩
      "\x7b\x7d /* xy\n".toList "z w".toList (by decide)⟩

/-- The comment-stripping test document of the spec's testable
property 4. -/
def commentSample : List Char :=
  "\x7b\"a\": \"// not a comment\", \"b\": 1 /* drop */\x7d".toList

/-- Claim C8 (counterexample): with the whitespace stripping that the
JSON pipeline always uses (`strip_space=True`, the default), the
comment-stripping pass does not return the claimed string — whitespace
outside string literals is removed as well. -/
theorem c8_strip_output_differs :
    json_minify true commentSample
      ≠ "\x7b\"a\": \"// not a comment\", \"b\": 1 \x7d".toList := by
  decide

/-- Claim C8 (amended): string contents survive and the block comment is
removed, but under the pipeline's default `strip_space=True` the
whitespace outside strings is stripped too, giving
`{"a":"// not a comment","b":1}`; the claimed output
`{"a": "// not a comment", "b": 1 }` is produced exactly when
`strip_space=False`. -/
theorem c8_strip_output_amended :
    json_minify true commentSample
      = "\x7b\"a\":\"// not a comment\",\"b\":1\x7d".toList ∧
    json_minify false commentSample
      = "\x7b\"a\": \"// not a comment\", \"b\": 1 \x7d".toList := by
  refine ⟨by decide, by decide⟩

/-- Claim C9: a plain-text sample whose first non-whitespace character
(after the caller's strip) is none of `<`, `{`, `[` classifies as
unsupported, and the dispatcher returns the sample unchanged — a no-op,
not an error; in particular `hello world` is unsupported. -/
theorem c9_unsupported_is_noop :
    (∀ (s : List Char) (xf jf : List Char → Option (List Char)),
      (∀ c, (pyStrip s).head? = some c → c ≠ '<' ∧ c ≠ '{' ∧ c ≠ '[') →
      get_text_type "plain text".toList (pyStrip s) = TextType.notsupported ∧
      autoIndent xf jf "plain text".toList (pyStrip s) = some (pyStrip s)) ∧
    (get_text_type "plain text".toList "hello world".toList = TextType.notsupported) ∧
    (∀ xf jf, autoIndent xf jf "plain text".toList "hello world".toList
      = some "hello world".toList) := by
  have hmain : ∀ (s : List Char),
      (∀ c, s.head? = some c → c ≠ '<' ∧ c ≠ '{' ∧ c ≠ '[') →
      get_text_type "plain text".toList s = TextType.notsupported := by
    intro s h
    cases s with
    | nil => rfl
    | cons c r =>
      obtain ⟨h1, h2, h3⟩ := h c rfl
      show (if (c :: r).head? = some '<' then TextType.xml
            else if (c :: r).head? = some '{' ∨ (c :: r).head? = some '[' then TextType.json
            else TextType.notsupported) = TextType.notsupported
      rw [if_neg, if_neg]
      · rintro (hc | hc) <;> [exact h2 (Option.some.inj hc); exact h3 (Option.some.inj hc)]
      · intro hc; exact h1 (Option.some.inj hc)
  refine ⟨?_, hmain "hello world".toList (by decide), ?_⟩
  · intro s xf jf h
    have hg := hmain (pyStrip s) h
    exact ⟨hg, by rw [autoIndent, hg]⟩
  · intro xf jf
    rw [autoIndent, hmain "hello world".toList (by decide)]

/-- Witness for C9: the concrete plain-text sample. -/
theorem c9_unsupported_is_noop_witness :
    get_text_type "plain text".toList (pyStrip "hello world".toList)
      = TextType.notsupported ∧
    autoIndent (fun _ => none) (fun _ => none) "plain text".toList
      (pyStrip "hello world".toList) = some (pyStrip "hello world".toList) :=
  c9_unsupported_is_noop.1 "hello world".toList (fun _ => none) (fun _ => none)
    (by decide)

/-- The declaration naming an unknown codec, for claim C10. -/
def bogusEncInput : List Char :=
  "<?xml version=\"1.0\" encoding=\"bogus\"?>\n<a/>".toList

/-- Claim C10: when the declared encoding is not a recognized codec, the
`s.encode(encoding)` call — which happens before the
`try/except etree.LxmlError` block — raises an uncaught lookup error:
the pipeline reports the uncaught-exception outcome for every parser
behaviour, and that outcome is neither the caught `XmlError` path nor a
formatted result. -/
theorem c10_unknown_codec_uncaught :
    (detectEncoding bogusEncInput = "bogus".toList) ∧
    (∀ (o : XmlOracle) (ck : List Char → Bool) ind, ck "bogus".toList = false →
      indentXml o ck ind bogusEncInput
        = XmlOutcome.uncaughtLookupError "bogus".toList) ∧
    (∀ t, XmlOutcome.uncaughtLookupError "bogus".toList ≠ XmlOutcome.xmlError ∧
          XmlOutcome.uncaughtLookupError "bogus".toList ≠ XmlOutcome.ok t) := by
  have henc : detectEncoding bogusEncInput = "bogus".toList := by decide
  refine ⟨henc, ?_, ?_⟩
  · intro o ck ind hck
    show (if !ck (detectEncoding bogusEncInput) then
            XmlOutcome.uncaughtLookupError (detectEncoding bogusEncInput)
          else
            match o (detectEncoding bogusEncInput) (xmlHeaderFlag bogusEncInput)
                bogusEncInput with
            | none => XmlOutcome.xmlError
            | some out => XmlOutcome.ok (remapXml (xmlIndentUnit ind) out)) = _
    rw [henc, hck]
    rfl
  · intro t
    exact ⟨by simp, by simp⟩

/-- Witness for C10: a codec predicate rejecting `bogus` (as Python's
codec registry does). -/
theorem c10_unknown_codec_uncaught_witness :
    indentXml (fun _ _ _ => none) (fun e => e == "utf-8".toList) (Sum.inl 4)
      bogusEncInput = XmlOutcome.uncaughtLookupError "bogus".toList :=
  c10_unknown_codec_uncaught.2.1 (fun _ _ _ => none)
    (fun e => e == "utf-8".toList) (Sum.inl 4) (by decide)
